import Mathlib

/-!
Verification of the udl live log-inspection dashboard (src/src/main.rs).

The development shallowly embeds the core of the program:

* the JSON value type handled by the flattener (`Value`), where a number is
  carried as the text its `Display` implementation renders (the program only
  ever formats numbers, never computes with them);
* the event store (`StatefulTable`, mirroring the Rust struct of the same
  name) with its selection-cursor operations `next` and `previous`, the
  insert done by `connection_loop`, and the default-selection step of the
  draw closure;
* the recursive flatteners `build_text_vec_from_hashmap` and
  `build_text_vec_from_object`;
* the framing read (`read`: read_until NUL, then `String::from_utf8_lossy`)
  and the panic structure of `connection_loop` (`serde_json::from_str(..)
  .unwrap()` and `try_lock().unwrap()`).

Machine integers: the selection index and lengths are `usize` in Rust; the
arithmetic performed on them is only `len - 1`, `i + 1`, `i - 1` on values
bounded by the vector length, so they are modelled as `Nat` with the checked
subtraction `len - 1` on an empty vector modelled as a panic outcome
(`Outcome.panicked`), matching the overflow check of the source build.
-/

/-- Outcome of a Rust computation that can panic (`unwrap` on `None`/`Err`,
or an arithmetic underflow check). -/
inductive Outcome (α : Type) where
  | ok (a : α)
  | panicked
deriving DecidableEq, Repr

/-- JSON values as seen by the flattener (serde_json `Value`). A `num` keeps
the exact text that the serde_json `Display` implementation would print for
the number, since the program only ever formats numbers into strings. An
`obj` keeps the entries of the serde_json `Map` in its iteration order
(serde_json with default features backs `Map` with a `BTreeMap`, so the
parser produces entries sorted by key; `btreeInsert`/`mkMap` below model
that construction). -/
inductive Value where
  | null
  | bool (b : Bool)
  | num (render : String)
  | str (s : String)
  | arr (items : List Value)
  | obj (entries : List (String × Value))
deriving Repr

/-- One call-stack entry of an event (struct `BacktraceItem`). -/
structure BacktraceItem where
  file : String
  line : Int
  function : String
deriving Repr

/-- One decoded debug event (struct `DebugEntry`). The `data` field is a
`HashMap<String, Value>` in the source; it is modelled as an association
list whose order carries no guarantee (Rust hash-map iteration order is
unspecified). -/
structure DebugEntry where
  label : String
  time : String
  data : List (String × Value)
  backtrace : List BacktraceItem
deriving Repr

/-- The selection state of the tui `TableState` (only the `selected` field
is ever used by the program). -/
structure TableState where
  selected : Option Nat
deriving Repr, DecidableEq

/-- The shared event store (struct `StatefulTable`). -/
structure StatefulTable where
  state : TableState
  items : List DebugEntry
deriving Repr

/-- `StatefulTable::next` (main.rs lines 58-70). With a selection present,
the source computes `i >= self.items.len() - 1`; on an empty vector the
`usize` subtraction underflows, modelled as a panic. With no selection it
selects index 0 unconditionally, including on an empty vector. -/
def StatefulTable.next (t : StatefulTable) : Outcome StatefulTable :=
  match t.state.selected with
  | some i =>
    match t.items.length with
    | 0 => Outcome.panicked
    | Nat.succ n => Outcome.ok { t with state := ⟨some (if n ≤ i then 0 else i + 1)⟩ }
  | none => Outcome.ok { t with state := ⟨some 0⟩ }

/-- `StatefulTable::previous` (main.rs lines 72-84). With selection `Some 0`
the source computes `self.items.len() - 1`, underflowing on an empty
vector; with no selection it selects index 0 unconditionally. -/
def StatefulTable.previous (t : StatefulTable) : Outcome StatefulTable :=
  match t.state.selected with
  | some i =>
    if i = 0 then
      match t.items.length with
      | 0 => Outcome.panicked
      | Nat.succ n => Outcome.ok { t with state := ⟨some n⟩ }
    else Outcome.ok { t with state := ⟨some (i - 1)⟩ }
  | none => Outcome.ok { t with state := ⟨some 0⟩ }

/-- The insert performed by `connection_loop` (main.rs line 339):
`items.insert(0, debug_entry)`, i.e. prepend; the selection is untouched. -/
def insertEntry (t : StatefulTable) (e : DebugEntry) : StatefulTable :=
  { t with items := e :: t.items }

/-- The default-selection step of the draw closure (main.rs lines 159-168):
when at least one item exists and nothing is selected yet, select the last
index. -/
def ensureDefaultSelection (t : StatefulTable) : StatefulTable :=
  match t.items.length with
  | 0 => t
  | Nat.succ n =>
    match t.state.selected with
    | none => { t with state := ⟨some n⟩ }
    | some _ => t

/-- The store invariant stated by the spec: the selection, when present, is
a valid index into `items`. -/
def StatefulTable.Inv (t : StatefulTable) : Prop :=
  match t.state.selected with
  | none => True
  | some i => i < t.items.length

/-- The empty store produced by `StatefulTable::new`. -/
def emptyTable : StatefulTable := { state := ⟨none⟩, items := [] }

/-- Successive ingestion of a list of decoded events, oldest first: each
connection ends in the `items.insert(0, _)` of `connection_loop`. -/
def ingestAll (es : List DebugEntry) (t : StatefulTable) : StatefulTable :=
  List.foldl insertEntry t es

/-- The indent of `build_text_vec_*`: the string of `level * 2` dashes
produced by `"-".repeat(level * 2)`. -/
def indentStr (level : Nat) : String :=
  String.mk (List.replicate (level * 2) '-')

/-- Rendering of a Rust `bool` by `format!`. -/
def boolText (b : Bool) : String := if b then "true" else "false"

/-- `build_text_vec_from_object` (main.rs lines 277-299), iterating the
serde_json `Map` entries in their iteration order. A nested object first
emits a header line carrying the parent label unless its key is `"array"`,
then recurses one level deeper; arrays emit nothing; a `Null` value emits
the key followed by the text ` NULL`. -/
def buildTextVecFromObject : List (String × Value) → Nat → String → List String
  | [], _, _ => []
  | (k, Value.null) :: rest, level, label =>
    (indentStr level ++ " " ++ k ++ " NULL") :: buildTextVecFromObject rest level label
  | (k, Value.bool b) :: rest, level, label =>
    (indentStr level ++ " " ++ k ++ " " ++ boolText b) :: buildTextVecFromObject rest level label
  | (k, Value.num s) :: rest, level, label =>
    (indentStr level ++ " " ++ k ++ " " ++ s) :: buildTextVecFromObject rest level label
  | (k, Value.str s) :: rest, level, label =>
    (indentStr level ++ " " ++ k ++ " " ++ s) :: buildTextVecFromObject rest level label
  | (_, Value.arr _) :: rest, level, label => buildTextVecFromObject rest level label
  | (k, Value.obj m) :: rest, level, label =>
    (if k ≠ "array" then [indentStr level ++ " " ++ k ++ " (" ++ label ++ ")"] else [])
      ++ buildTextVecFromObject m (level + 1) k
      ++ buildTextVecFromObject rest level label
termination_by l _ _ => sizeOf l

/-- `build_text_vec_from_hashmap` (main.rs lines 256-275), the top-level
flattener over the `HashMap` payload (iteration order unspecified in Rust;
modelled as the given list order). A `Null` value emits just the key, and
an object recurses with no header line regardless of its key. -/
def buildTextVecFromHashmap : List (String × Value) → Nat → List String
  | [], _ => []
  | (k, Value.null) :: rest, level =>
    (indentStr level ++ " " ++ k) :: buildTextVecFromHashmap rest level
  | (k, Value.bool b) :: rest, level =>
    (indentStr level ++ " " ++ k ++ " " ++ boolText b) :: buildTextVecFromHashmap rest level
  | (k, Value.num s) :: rest, level =>
    (indentStr level ++ " " ++ k ++ " " ++ s) :: buildTextVecFromHashmap rest level
  | (k, Value.str s) :: rest, level =>
    (indentStr level ++ " " ++ k ++ " " ++ s) :: buildTextVecFromHashmap rest level
  | (_, Value.arr _) :: rest, level => buildTextVecFromHashmap rest level
  | (k, Value.obj m) :: rest, level =>
    buildTextVecFromObject m (level + 1) k ++ buildTextVecFromHashmap rest level
termination_by l _ => sizeOf l

/-- The lines contributed by one `(key, value)` entry of the loop body of
`build_text_vec_from_object`, split out so that the loop can be stated as a
concatenation over the entries in iteration order. -/
def objEntryLines (k : String) (v : Value) (level : Nat) (label : String) : List String :=
  match v with
  | Value.null => [indentStr level ++ " " ++ k ++ " NULL"]
  | Value.bool b => [indentStr level ++ " " ++ k ++ " " ++ boolText b]
  | Value.num s => [indentStr level ++ " " ++ k ++ " " ++ s]
  | Value.str s => [indentStr level ++ " " ++ k ++ " " ++ s]
  | Value.arr _ => []
  | Value.obj m =>
    (if k ≠ "array" then [indentStr level ++ " " ++ k ++ " (" ++ label ++ ")"] else [])
      ++ buildTextVecFromObject m (level + 1) k

/-- Insertion into a `BTreeMap<String, Value>` viewed as its sorted entry
list: serde_json with default features backs `Map<String, Value>` with a
`BTreeMap`, which keeps entries in strictly ascending key order and
replaces the value on an equal key. -/
def btreeInsert : List (String × Value) → String → Value → List (String × Value)
  | [], k, v => [(k, v)]
  | (k2, v2) :: rest, k, v =>
    if k < k2 then (k, v) :: (k2, v2) :: rest
    else if k = k2 then (k, v) :: rest
    else (k2, v2) :: btreeInsert rest k v

/-- The entry list of the serde_json `Map` built by deserialising a JSON
object whose key/value pairs appear in document order `kvs`: serde
deserialisation inserts each pair in turn into an initially empty map. -/
def mkMap (kvs : List (String × Value)) : List (String × Value) :=
  List.foldl (fun m p => btreeInsert m p.1 p.2) [] kvs

/-- `read` framing (main.rs line 324): the read_until call with the NUL
delimiter collects every byte up to and including the first NUL, or the
whole stream when no NUL arrives before end of stream. -/
def readUntilNul : List Nat → List Nat
  | [] => []
  | b :: rest => if b = 0 then [0] else b :: readUntilNul rest

/-- The replacement character U+FFFD substituted for invalid UTF-8. -/
def repChar : Char := Char.ofNat 0xFFFD

/-- Continuation-byte test of the UTF-8 decoder: `0x80 ≤ b ≤ 0xBF`. -/
def isCont (b : Nat) : Bool := 0x80 ≤ b && b ≤ 0xBF

/-- Admissible second byte after a three-byte lead, per the UTF-8 ranges
enforced by `String::from_utf8_lossy` (E0 narrows to A0..BF, ED to 80..9F). -/
def cont3ok (b b2 : Nat) : Bool :=
  if b = 0xE0 then 0xA0 ≤ b2 && b2 ≤ 0xBF
  else if b = 0xED then 0x80 ≤ b2 && b2 ≤ 0x9F
  else isCont b2

/-- Admissible second byte after a four-byte lead (F0 narrows to 90..BF,
F4 to 80..8F). -/
def cont4ok (b b2 : Nat) : Bool :=
  if b = 0xF0 then 0x90 ≤ b2 && b2 ≤ 0xBF
  else if b = 0xF4 then 0x80 ≤ b2 && b2 ≤ 0x8F
  else isCont b2

/-- One step of the lossy UTF-8 decoder behind `String::from_utf8_lossy`:
given the current byte and the remaining bytes, produce the decoded (or
replacement) character and how many further bytes the step consumes. An
invalid or truncated sequence yields one replacement character for its
maximal valid prefix and resumes at the offending byte (the substitution
of maximal subparts of the WHATWG decoder, which the Rust standard library
implements). -/
def utf8Step (b : Nat) (rest : List Nat) : Char × Nat :=
  if b < 0x80 then (Char.ofNat b, 0)
  else if b < 0xC2 then (repChar, 0)
  else if b ≤ 0xDF then
    match rest with
    | b2 :: _ => if isCont b2 then (Char.ofNat ((b - 0xC0) * 64 + (b2 - 0x80)), 1) else (repChar, 0)
    | [] => (repChar, 0)
  else if b ≤ 0xEF then
    match rest with
    | b2 :: b3 :: _ =>
      if cont3ok b b2 then
        if isCont b3 then
          (Char.ofNat (((b - 0xE0) * 64 + (b2 - 0x80)) * 64 + (b3 - 0x80)), 2)
        else (repChar, 1)
      else (repChar, 0)
    | [b2] => if cont3ok b b2 then (repChar, 1) else (repChar, 0)
    | [] => (repChar, 0)
  else if b ≤ 0xF4 then
    match rest with
    | b2 :: b3 :: b4 :: _ =>
      if cont4ok b b2 then
        if isCont b3 then
          if isCont b4 then
            (Char.ofNat ((((b - 0xF0) * 64 + (b2 - 0x80)) * 64 + (b3 - 0x80)) * 64 + (b4 - 0x80)), 3)
          else (repChar, 2)
        else (repChar, 1)
      else (repChar, 0)
    | [b2, b3] =>
      if cont4ok b b2 then (if isCont b3 then (repChar, 2) else (repChar, 1)) else (repChar, 0)
    | [b2] => if cont4ok b b2 then (repChar, 1) else (repChar, 0)
    | [] => (repChar, 0)
  else (repChar, 0)

/-- `String::from_utf8_lossy` over a byte list, producing the character
sequence of the resulting string. -/
def utf8Lossy : List Nat → List Char
  | [] => []
  | b :: rest => (utf8Step b rest).1 :: utf8Lossy (rest.drop (utf8Step b rest).2)
termination_by l => l.length
decreasing_by simp [List.length_drop]; omega

/-- The character sequence of the string returned by `read` (main.rs lines
315-330) on the successful I/O path: the lossy decoding of everything
`read_until` collected, the NUL terminator included, since the source never
strips the delimiter from `content`. -/
def readChars (bs : List Nat) : List Char := utf8Lossy (readUntilNul bs)

/-- The panic structure of `connection_loop` (main.rs lines 332-342),
parametric in the external serde_json parser (`parse`, returning `none`
exactly when `from_str::<DebugEntry>` would return `Err`) and in whether
the store guard is currently held by the UI thread (`locked`). The source
unwraps the parse result and then unwraps `try_lock()`, so either failure
is a panic, and on success it prepends the decoded entry. -/
def connectionLoop (parse : List Char → Option DebugEntry) (bytes : List Nat)
    (locked : Bool) (t : StatefulTable) : Outcome StatefulTable :=
  match parse (readChars bytes) with
  | none => Outcome.panicked
  | some e => if locked then Outcome.panicked else Outcome.ok (insertEntry t e)

/-- `async_std::sync::Mutex::try_lock`: succeeds exactly when the guard is
free. -/
def tryLock (locked : Bool) : Option Unit := if locked then none else some ()

/-- The guard acquisition of the draw closure and of the key handlers
(main.rs lines 113, 226, 230): `mutex_table.try_lock().unwrap()`. -/
def drawAcquire (locked : Bool) : Outcome Unit :=
  match tryLock locked with
  | none => Outcome.panicked
  | some _ => Outcome.ok ()

/-- A concrete decoded event for witnesses and counterexamples. -/
def sampleEntry : DebugEntry :=
  { label := "a", time := "t", data := [], backtrace := [] }

theorem ingestAll_items (es : List DebugEntry) (t : StatefulTable) :
    (ingestAll es t).items = es.reverse ++ t.items := by
  induction es generalizing t with
  | nil => simp [ingestAll]
  | cons e rest ih =>
    have h := ih (insertEntry t e)
    simp only [ingestAll, List.foldl_cons] at h ⊢
    rw [h]
    simp [insertEntry]

/-- C2: the source behaviour on the empty store: with no selection,
`next`/`previous` do not fail but set the selection to index 0 instead of
leaving it `None`; with a selection present, both underflow the `usize`
subtraction `len - 1` and panic. -/
theorem c2_empty_store_behaviour :
    StatefulTable.next emptyTable = Outcome.ok { state := ⟨some 0⟩, items := [] } ∧
    StatefulTable.previous emptyTable = Outcome.ok { state := ⟨some 0⟩, items := [] } ∧
    StatefulTable.next { state := ⟨some 0⟩, items := [] } = Outcome.panicked ∧
    StatefulTable.previous { state := ⟨some 0⟩, items := [] } = Outcome.panicked :=
  ⟨rfl, rfl, rfl, rfl⟩

/-- C3 counterexample: on a store of two events with no selection,
`previous` selects index 0, not `len(events) - 1 = 1` as the claim states. -/
theorem c3_counterexample :
    StatefulTable.previous { state := ⟨none⟩, items := [sampleEntry, sampleEntry] } =
      Outcome.ok { state := ⟨some 0⟩, items := [sampleEntry, sampleEntry] } ∧
    (some 0 : Option Nat) ≠ some ([sampleEntry, sampleEntry].length - 1) :=
  ⟨rfl, by decide⟩

/-- C3 amended: on a non-empty store, `previous` with no selection selects
index 0; with selection `Some 0` it selects `len(events) - 1`; with
selection `Some (i+1)` it selects `i`. -/
theorem c3_amended (t : StatefulTable) (h : t.items ≠ []) :
    StatefulTable.previous t = Outcome.ok { t with state := ⟨some (
      match t.state.selected with
      | none => 0
      | some 0 => t.items.length - 1
      | some (i + 1) => i)⟩ } := by
  obtain ⟨⟨sel⟩, items⟩ := t
  cases sel with
  | none => rfl
  | some i =>
    cases i with
    | zero =>
      cases items with
      | nil => exact absurd rfl h
      | cons e rest => simp [StatefulTable.previous]
    | succ j => simp [StatefulTable.previous]

/-- C3 amended, witness: on the one-event store with selection `Some 0`,
`previous` selects `len - 1 = 0`. -/
theorem c3_amended_witness :
    StatefulTable.previous { state := ⟨some 0⟩, items := [sampleEntry] } =
      Outcome.ok { state := ⟨some 0⟩, items := [sampleEntry] } :=
  c3_amended { state := ⟨some 0⟩, items := [sampleEntry] } (by simp)

/-- C4 counterexample: on the empty store with no selection, `next`
succeeds but produces a state whose selection `Some 0` is not a valid
index, so the operation does not preserve the claimed invariant on every
reachable state. -/
theorem c4_counterexample :
    StatefulTable.next emptyTable = Outcome.ok { state := ⟨some 0⟩, items := [] } ∧
    ¬ StatefulTable.Inv { state := ⟨some 0⟩, items := [] } :=
  ⟨rfl, by simp [StatefulTable.Inv]⟩

/-- C4 amended: the insert of `connection_loop` and the default-selection
step of the draw closure preserve the selection invariant on every store,
the empty one included; `next` and `previous` preserve it (returning
successfully) on every store whose event list is non-empty. On the empty
store with no selection, both `next` and `previous` succeed but set the
selection to `Some 0`, violating the invariant; on the empty store with a
selection `Some i` present, `next` panics by usize underflow for every
`i`, `previous` panics when `i = 0`, and `previous` with `i = j + 1`
succeeds with selection `Some j`, again an invalid index for the empty
store. -/
theorem c4_amended (t : StatefulTable) (e : DebugEntry) :
    (t.Inv → (insertEntry t e).Inv) ∧
    (t.Inv → (ensureDefaultSelection t).Inv) ∧
    (t.Inv → t.items ≠ [] →
      (∃ t2, StatefulTable.next t = Outcome.ok t2 ∧ t2.Inv) ∧
      (∃ t2, StatefulTable.previous t = Outcome.ok t2 ∧ t2.Inv)) ∧
    (t.items = [] → t.state.selected = none →
      StatefulTable.next t = Outcome.ok { t with state := ⟨some 0⟩ } ∧
      StatefulTable.previous t = Outcome.ok { t with state := ⟨some 0⟩ } ∧
      ¬ StatefulTable.Inv { t with state := ⟨some 0⟩ }) ∧
    (∀ i, t.items = [] → t.state.selected = some i →
      StatefulTable.next t = Outcome.panicked) ∧
    (t.items = [] → t.state.selected = some 0 →
      StatefulTable.previous t = Outcome.panicked) ∧
    (∀ i, t.items = [] → t.state.selected = some (i + 1) →
      StatefulTable.previous t = Outcome.ok { t with state := ⟨some i⟩ } ∧
      ¬ StatefulTable.Inv { t with state := ⟨some i⟩ }) := by
  obtain ⟨⟨sel⟩, items⟩ := t
  refine ⟨?_, ?_, ?_, ?_, ?_, ?_, ?_⟩
  · intro hinv
    cases sel with
    | none => trivial
    | some i =>
      simp only [StatefulTable.Inv] at hinv
      simp only [insertEntry, StatefulTable.Inv, List.length_cons]
      omega
  · intro hinv
    cases items with
    | nil =>
      cases sel with
      | none => trivial
      | some i => exact hinv
    | cons e2 rest =>
      cases sel with
      | none =>
        simp only [ensureDefaultSelection, List.length_cons, StatefulTable.Inv]
        omega
      | some i =>
        simp only [StatefulTable.Inv, List.length_cons] at hinv
        simp only [ensureDefaultSelection, List.length_cons, StatefulTable.Inv]
        omega
  · intro hinv hne
    cases items with
    | nil => exact absurd rfl hne
    | cons e2 rest =>
      cases sel with
      | none =>
        refine ⟨⟨_, rfl, ?_⟩, ⟨_, rfl, ?_⟩⟩
        · simp only [StatefulTable.Inv, List.length_cons]; omega
        · simp only [StatefulTable.Inv, List.length_cons]; omega
      | some i =>
        simp only [StatefulTable.Inv, List.length_cons] at hinv
        constructor
        · refine ⟨_, rfl, ?_⟩
          simp only [StatefulTable.Inv, List.length_cons]
          split <;> omega
        · cases i with
          | zero =>
            refine ⟨{ state := ⟨some rest.length⟩, items := e2 :: rest },
              by simp [StatefulTable.previous], ?_⟩
            simp only [StatefulTable.Inv, List.length_cons]
            omega
          | succ j =>
            refine ⟨{ state := ⟨some j⟩, items := e2 :: rest },
              by simp [StatefulTable.previous], ?_⟩
            simp only [StatefulTable.Inv, List.length_cons]
            omega
  · intro hi hs
    cases sel with
    | some i => exact absurd hs (by simp)
    | none =>
      subst hi
      exact ⟨rfl, rfl, by simp [StatefulTable.Inv]⟩
  · intro i hi hs
    cases sel with
    | none => exact absurd hs (by simp)
    | some j =>
      subst hi
      rfl
  · intro hi hs
    cases sel with
    | none => exact absurd hs (by simp)
    | some j =>
      have hj : j = 0 := by simpa using hs
      subst hj
      subst hi
      rfl
  · intro i hi hs
    cases sel with
    | none => exact absurd hs (by simp)
    | some j =>
      have hj : j = i + 1 := by simpa using hs
      subst hj
      subst hi
      exact ⟨rfl, by simp [StatefulTable.Inv]⟩

/-- C4 amended, witness: each arm of the amended statement instantiated
concretely: insert on the empty store, default-selection and
`next`/`previous` on the one-event store with selection `Some 0`, the
`Some 0` default of `next`/`previous` on the empty unselected store, the
panics of `next` and `previous` on the empty store with selection
`Some 0`, and the invalid `Some 0` result of `previous` on the empty
store with selection `Some 1`. -/
theorem c4_amended_witness :
    (insertEntry emptyTable sampleEntry).Inv ∧
    (ensureDefaultSelection { state := ⟨some 0⟩, items := [sampleEntry] }).Inv ∧
    (∃ t2, StatefulTable.next { state := ⟨some 0⟩, items := [sampleEntry] } = Outcome.ok t2 ∧
      t2.Inv) ∧
    (∃ t2, StatefulTable.previous { state := ⟨some 0⟩, items := [sampleEntry] } = Outcome.ok t2 ∧
      t2.Inv) ∧
    (StatefulTable.next emptyTable = Outcome.ok { state := ⟨some 0⟩, items := [] } ∧
      StatefulTable.previous emptyTable = Outcome.ok { state := ⟨some 0⟩, items := [] } ∧
      ¬ StatefulTable.Inv { state := ⟨some 0⟩, items := [] }) ∧
    StatefulTable.next { state := ⟨some 0⟩, items := [] } = Outcome.panicked ∧
    StatefulTable.previous { state := ⟨some 0⟩, items := [] } = Outcome.panicked ∧
    (StatefulTable.previous { state := ⟨some 1⟩, items := [] } =
        Outcome.ok { state := ⟨some 0⟩, items := [] } ∧
      ¬ StatefulTable.Inv { state := ⟨some 0⟩, items := [] }) := by
  have h1 := c4_amended emptyTable sampleEntry
  have h2 := c4_amended { state := ⟨some 0⟩, items := [sampleEntry] } sampleEntry
  have h3 := c4_amended { state := ⟨some 0⟩, items := [] } sampleEntry
  have h4 := c4_amended { state := ⟨some 1⟩, items := [] } sampleEntry
  refine ⟨h1.1 trivial,
    h2.2.1 (by simp [StatefulTable.Inv]),
    (h2.2.2.1 (by simp [StatefulTable.Inv]) (by simp)).1,
    (h2.2.2.1 (by simp [StatefulTable.Inv]) (by simp)).2,
    h1.2.2.2.1 rfl rfl,
    h3.2.2.2.2.1 0 rfl rfl,
    h3.2.2.2.2.2.1 rfl rfl,
    h4.2.2.2.2.2.2 0 rfl rfl⟩

/-- C7: ingesting N well-formed events in order leaves the store holding
them in reverse-chronological order: the item list is the reversal of the
send order, its length is N, index 0 holds the last event sent, index N-1
the first, and each single insert prepends at index 0. -/
theorem c7_reverse_chronological (es : List DebugEntry) :
    (ingestAll es emptyTable).items = es.reverse ∧
    (ingestAll es emptyTable).items.length = es.length ∧
    (ingestAll es emptyTable).items.head? = es.getLast? ∧
    (ingestAll es emptyTable).items.getLast? = es.head? ∧
    ∀ t e, (insertEntry t e).items = e :: t.items := by
  have h : (ingestAll es emptyTable).items = es.reverse := by
    rw [ingestAll_items]
    simp [emptyTable]
  refine ⟨h, ?_, ?_, ?_, fun t e => rfl⟩
  · rw [h]; simp
  · rw [h, List.head?_reverse]
  · rw [h, List.getLast?_reverse]

/-- C6 counterexample: for the payload mapping the key `o` to an object
mapping `k` to `Null`, the nested `Null` at depth 1 is rendered as the
line `-- k NULL`, not `-- k` as the claim states for every depth. -/
theorem c6_counterexample :
    buildTextVecFromHashmap [("o", Value.obj [("k", Value.null)])] 0 = ["-- k NULL"] ∧
    ("-- k NULL" : String) ≠ "-- k" := by
  constructor
  · simp [buildTextVecFromHashmap, buildTextVecFromObject, indentStr]
  · decide

/-- C6 amended: a key with value `Null` at the top level (depth 0) emits
the line made of the indent, a space and the key; inside a nested object
at any depth the emitted line additionally ends in a space and the text
`NULL`. -/
theorem c6_amended (k : String) (rest : List (String × Value)) (level : Nat) (label : String) :
    buildTextVecFromHashmap ((k, Value.null) :: rest) level =
      (indentStr level ++ " " ++ k) :: buildTextVecFromHashmap rest level ∧
    buildTextVecFromObject ((k, Value.null) :: rest) level label =
      (indentStr level ++ " " ++ k ++ " NULL") :: buildTextVecFromObject rest level label := by
  constructor
  · simp [buildTextVecFromHashmap]
  · simp [buildTextVecFromObject]

/-- C8: flattening the payload mapping `outer` to the object mapping
`inner` to the number 5 emits exactly the single line `-- inner 5`, with
two dashes of indent for depth 1 and no header line for the top-level key
`outer`. -/
theorem c8_nested_scenario :
    buildTextVecFromHashmap [("outer", Value.obj [("inner", Value.num "5")])] 0 =
      ["-- inner 5"] := by
  simp [buildTextVecFromHashmap, buildTextVecFromObject, indentStr]

/-- C1: when the decoded text of a connection does not parse as a
`DebugEntry` (the stream ended before a NUL, or the text is not valid JSON
for the schema), `connection_loop` panics on the `unwrap` of the parse
result instead of returning a recoverable error, and no event is inserted. -/
theorem c1_malformed_input_panics (parse : List Char → Option DebugEntry)
    (bs : List Nat) (t : StatefulTable) (h : parse (readChars bs) = none) :
    connectionLoop parse bs false t = Outcome.panicked := by
  simp [connectionLoop, h]

/-- C1 witness: a parser rejecting the decoded text of the empty stream
makes `connection_loop` panic. -/
theorem c1_malformed_input_panics_witness :
    connectionLoop (fun _ => none) [] false emptyTable = Outcome.panicked :=
  c1_malformed_input_panics (fun _ => none) [] emptyTable rfl

/-- C9: when the store guard is held by the other thread, both acquisition
sites panic instead of blocking: `connection_loop` panics on the `unwrap`
of `try_lock()` (or earlier on a failed parse), and the draw-closure and
key-handler acquisitions panic on their `try_lock().unwrap()`. -/
theorem c9_contention_panics (parse : List Char → Option DebugEntry)
    (bs : List Nat) (t : StatefulTable) :
    connectionLoop parse bs true t = Outcome.panicked ∧
    drawAcquire true = Outcome.panicked := by
  constructor
  · cases hp : parse (readChars bs) <;> simp [connectionLoop, hp]
  · rfl

theorem btreeInsert_keys_subset (m : List (String × Value)) (k : String) (v : Value) :
    ∀ x ∈ (btreeInsert m k v).map Prod.fst, x = k ∨ x ∈ m.map Prod.fst := by
  induction m with
  | nil => simp [btreeInsert]
  | cons p rest ih =>
    obtain ⟨k2, v2⟩ := p
    by_cases h1 : k < k2
    · simp only [btreeInsert, if_pos h1, List.map_cons, List.mem_cons]
      tauto
    · by_cases h2 : k = k2
      · simp only [btreeInsert, if_neg h1, if_pos h2, List.map_cons, List.mem_cons]
        tauto
      · simp only [btreeInsert, if_neg h1, if_neg h2, List.map_cons, List.mem_cons]
        intro x hx
        rcases hx with hx | hx
        · tauto
        · rcases ih x hx with hx2 | hx2 <;> tauto

theorem btreeInsert_sorted (m : List (String × Value)) (k : String) (v : Value)
    (hs : ((m.map Prod.fst).Sorted (· < ·))) :
    (((btreeInsert m k v).map Prod.fst).Sorted (· < ·)) := by
  induction m with
  | nil => simp [btreeInsert]
  | cons p rest ih =>
    obtain ⟨k2, v2⟩ := p
    rw [List.map_cons, List.sorted_cons] at hs
    obtain ⟨hall, hrest⟩ := hs
    by_cases h1 : k < k2
    · simp only [btreeInsert, if_pos h1, List.map_cons, List.sorted_cons, List.mem_cons]
      refine ⟨?_, hall, hrest⟩
      intro b hb
      rcases hb with hb | hb
      · exact hb ▸ h1
      · exact lt_trans h1 (hall b hb)
    · by_cases h2 : k = k2
      · subst h2
        have he : btreeInsert ((k, v2) :: rest) k v = (k, v) :: rest := by
          simp [btreeInsert, h1]
        rw [he, List.map_cons, List.sorted_cons]
        exact ⟨hall, hrest⟩
      · have h3 : k2 < k := lt_of_le_of_ne (le_of_not_lt h1) (Ne.symm h2)
        simp only [btreeInsert, if_neg h1, if_neg h2, List.map_cons, List.sorted_cons]
        refine ⟨?_, ih hrest⟩
        intro b hb
        rcases btreeInsert_keys_subset rest k v b hb with hb2 | hb2
        · exact hb2 ▸ h3
        · exact hall b hb2

theorem mkMap_sorted (kvs : List (String × Value)) :
    (((mkMap kvs).map Prod.fst).Sorted (· < ·)) := by
  have haux : ∀ (l : List (String × Value)) (m : List (String × Value)),
      ((m.map Prod.fst).Sorted (· < ·)) →
      (((List.foldl (fun m p => btreeInsert m p.1 p.2) m l).map Prod.fst).Sorted (· < ·)) := by
    intro l
    induction l with
    | nil => intro m hm; simpa using hm
    | cons p rest ih =>
      intro m hm
      exact ih (btreeInsert m p.1 p.2) (btreeInsert_sorted m p.1 p.2 hm)
  simpa [mkMap] using haux kvs [] (by simp)

theorem buildTextVecFromObject_cons (k : String) (v : Value)
    (rest : List (String × Value)) (level : Nat) (label : String) :
    buildTextVecFromObject ((k, v) :: rest) level label =
      objEntryLines k v level label ++ buildTextVecFromObject rest level label := by
  cases v <;> simp [buildTextVecFromObject, objEntryLines]

theorem buildTextVecFromObject_eq_flatMap (entries : List (String × Value))
    (level : Nat) (label : String) :
    buildTextVecFromObject entries level label =
      entries.flatMap (fun p => objEntryLines p.1 p.2 level label) := by
  induction entries with
  | nil => simp [buildTextVecFromObject]
  | cons p rest ih =>
    obtain ⟨k, v⟩ := p
    rw [buildTextVecFromObject_cons, ih, List.flatMap_cons]

/-- C10: a nested object, being a serde_json `Map` (a BTreeMap under the
default features), is flattened entry by entry in strictly ascending
lexicographic key order: any map built by inserting parsed key/value pairs
has sorted keys, and `build_text_vec_from_object` emits the per-entry line
blocks in exactly that entry order. -/
theorem c10_nested_key_order (kvs : List (String × Value)) (level : Nat) (label : String) :
    (((mkMap kvs).map Prod.fst).Sorted (· < ·)) ∧
    buildTextVecFromObject (mkMap kvs) level label =
      (mkMap kvs).flatMap (fun p => objEntryLines p.1 p.2 level label) :=
  ⟨mkMap_sorted kvs, buildTextVecFromObject_eq_flatMap (mkMap kvs) level label⟩

theorem isCont_zero : isCont 0 = false := rfl

theorem cont3ok_zero (b : Nat) : cont3ok b 0 = false := by
  unfold cont3ok
  split
  · rfl
  · split <;> rfl

theorem cont4ok_zero (b : Nat) : cont4ok b 0 = false := by
  unfold cont4ok
  split
  · rfl
  · split <;> rfl

theorem utf8Step_append_nul (b : Nat) (rest : List Nat) :
    utf8Step b (rest ++ [0]) = utf8Step b rest := by
  match rest with
  | [] => simp [utf8Step, isCont_zero, cont3ok_zero, cont4ok_zero]
  | [b2] => simp [utf8Step, isCont_zero, cont3ok_zero, cont4ok_zero]
  | [b2, b3] => simp [utf8Step, isCont_zero, cont3ok_zero, cont4ok_zero]
  | b2 :: b3 :: b4 :: tl => simp [utf8Step]

theorem utf8Step_snd_le (b : Nat) (rest : List Nat) :
    (utf8Step b rest).2 ≤ rest.length := by
  unfold utf8Step
  repeat' split
  all_goals simp

theorem utf8Lossy_cons (b : Nat) (rest : List Nat) :
    utf8Lossy (b :: rest) =
      (utf8Step b rest).1 :: utf8Lossy (rest.drop (utf8Step b rest).2) := by
  rw [utf8Lossy]

theorem utf8Lossy_append_nul (xs : List Nat) :
    utf8Lossy (xs ++ [0]) = utf8Lossy xs ++ [Char.ofNat 0] := by
  induction xs using utf8Lossy.induct with
  | case1 => simp [utf8Lossy, utf8Step]
  | case2 b rest ih =>
    rw [List.cons_append, utf8Lossy_cons, utf8Step_append_nul]
    have hk : (utf8Step b rest).2 ≤ rest.length := utf8Step_snd_le b rest
    rw [List.drop_append_of_le_length hk]
    rw [ih, utf8Lossy_cons]
    simp

theorem readUntilNul_of_mem (bs : List Nat) (h : 0 ∈ bs) :
    readUntilNul bs = bs.takeWhile (fun b => b != 0) ++ [0] := by
  induction bs with
  | nil => cases h
  | cons b rest ih =>
    by_cases hb : b = 0
    · subst hb
      simp [readUntilNul, List.takeWhile_cons]
    · have hr : 0 ∈ rest := by
        rcases List.mem_cons.mp h with h2 | h2
        · exact absurd h2.symm hb
        · exact h2
      simp [readUntilNul, hb, List.takeWhile_cons, ih hr]

/-- C5: for every byte stream containing a NUL, the bytes collected by
`read` are exactly those before the first NUL together with the NUL
itself, and the lossily decoded text handed to the JSON parser therefore
ends in the NUL character: the trailing delimiter is not excluded from the
parsed text, contrary to the claim. Decoding itself never fails, being the
total lossy decoder. -/
theorem c5_trailing_nul_in_text (bs : List Nat) (h : 0 ∈ bs) :
    readUntilNul bs = bs.takeWhile (fun b => b != 0) ++ [0] ∧
    (readChars bs).getLast? = some (Char.ofNat 0) := by
  refine ⟨readUntilNul_of_mem bs h, ?_⟩
  rw [readChars, readUntilNul_of_mem bs h, utf8Lossy_append_nul, List.getLast?_concat]

/-- C5 witness: the stream sending the digit 1 and then the NUL terminator
yields a parsed text whose last character is the NUL. -/
theorem c5_trailing_nul_in_text_witness :
    readUntilNul [49, 0] = [49, 0].takeWhile (fun b => b != 0) ++ [0] ∧
    (readChars [49, 0]).getLast? = some (Char.ofNat 0) :=
  c5_trailing_nul_in_text [49, 0] (by decide)
